import Mathlib

/-!
Shallow embedding of `scripts/convert_guides.py` (the drug-guide conversion
engine): the cell-data generation, the annotation merge, the merged-cell
geometry of the HTML renderer, and the border style extraction.  Python
strings are modelled by `String`, Python dicts by association lists with
dict update semantics, and machine integers do not occur (all counts are
naturals).
-/

namespace ConvertGuides

/-- Characters treated as whitespace by Python's `str.strip()` (ASCII range;
the strings the converter manipulates are extracted ASCII/latin text). -/
def isPySpace (c : Char) : Bool :=
  c = ' ' || c = '\t' || c = '\n' || c = '\r' || c = '\x0b' || c = '\x0c'

/-- Model of Python `str.strip()`: drop leading and trailing whitespace. -/
def pyStrip (s : String) : String :=
  String.mk (((s.data.dropWhile isPySpace).reverse.dropWhile isPySpace).reverse)

/-- Skip to the first `>` in the list, returning the remainder after it. -/
def skipToGt : List Char → Option (List Char)
  | [] => none
  | c :: cs => if c = '>' then some cs else skipToGt cs

/-- Given the characters after an opening `<`, return the remainder after the
matching `>` of a `<[^>]+>` match, or `none` when the regex cannot match at
this `<` (first char is already `>`, or no `>` follows). -/
def tagEnd? : List Char → Option (List Char)
  | [] => none
  | c :: cs => if c = '>' then none else skipToGt cs

theorem skipToGt_length : ∀ l r, skipToGt l = some r → r.length < l.length := by
  intro l
  induction l with
  | nil => intro r h; simp [skipToGt] at h
  | cons c cs ih =>
    intro r h
    unfold skipToGt at h
    by_cases hc : c = '>'
    · rw [if_pos hc] at h
      cases h
      simp
    · rw [if_neg hc] at h
      have := ih r h
      simp only [List.length_cons]
      omega

theorem tagEnd?_length (l r : List Char) (h : tagEnd? l = some r) :
    r.length < l.length := by
  match l with
  | [] => simp [tagEnd?] at h
  | c :: cs =>
    simp only [tagEnd?] at h
    by_cases hc : c = '>'
    · rw [if_pos hc] at h; cases h
    · rw [if_neg hc] at h
      have := skipToGt_length cs r h
      simp only [List.length_cons]
      omega

/-- Model of `re.sub(r"<[^>]+>", "", s)` on the character list: leftmost
non-overlapping matches of `<`, one or more non-`>` characters, `>` are
deleted.  When the regex cannot match at a `<` the character is kept and
scanning resumes with the next character.  `fuel ≥ length` suffices; the
fuel makes the recursion structural so that terms evaluate by reduction. -/
def rtNormal : Nat → List Char → List Char
  | 0, _ => []
  | _ + 1, [] => []
  | fuel + 1, c :: cs =>
    if c = '<' then
      match tagEnd? cs with
      | some rest => rtNormal fuel rest
      | none => c :: rtNormal fuel cs
    else c :: rtNormal fuel cs

/-- Model of `re.sub(r"<[^>]+>", "", s)` used to normalize cell content. -/
def removeTags (s : String) : String :=
  String.mk (rtNormal s.data.length s.data)

/-- Decimal digit character for a value `0 ≤ n ≤ 9`. -/
def decDigit (n : Nat) : Char :=
  match n with
  | 0 => '0' | 1 => '1' | 2 => '2' | 3 => '3' | 4 => '4'
  | 5 => '5' | 6 => '6' | 7 => '7' | 8 => '8' | _ => '9'

/-- Fuel-driven decimal rendering of a positive natural (most significant
digit first); `fuel ≥ n` suffices. -/
def toDecAux : Nat → Nat → List Char
  | 0, _ => []
  | _ + 1, 0 => []
  | fuel + 1, n => toDecAux fuel (n / 10) ++ [decDigit (n % 10)]

/-- Model of Python `str(n)` for a natural number. -/
def natToStr (n : Nat) : String :=
  if n = 0 then "0" else String.mk (toDecAux n n)

/-- Numeric value of a decimal digit character. -/
def decVal (c : Char) : Nat :=
  match c with
  | '0' => 0 | '1' => 1 | '2' => 2 | '3' => 3 | '4' => 4
  | '5' => 5 | '6' => 6 | '7' => 7 | '8' => 8 | '9' => 9
  | _ => 0

/-- Decimal parse of a character list, used only to invert `natToStr`. -/
def fromDec (l : List Char) : Nat :=
  l.foldl (fun a c => 10 * a + decVal c) 0

theorem decVal_decDigit (n : Nat) (h : n < 10) : decVal (decDigit n) = n := by
  interval_cases n <;> rfl

theorem toDecAux_zero (fuel : Nat) : toDecAux fuel 0 = [] := by
  cases fuel <;> rfl

theorem toDecAux_succ (fuel n : Nat) (h : n ≠ 0) :
    toDecAux (fuel + 1) n = toDecAux fuel (n / 10) ++ [decDigit (n % 10)] := by
  match n, h with
  | n + 1, _ => rfl

theorem foldl_toDecAux (fuel : Nat) :
    ∀ n, n ≤ fuel → n ≠ 0 →
      ∀ a, List.foldl (fun a c => 10 * a + decVal c) a (toDecAux fuel n) =
        a * 10 ^ (toDecAux fuel n).length + n := by
  induction fuel with
  | zero => intro n hn h0 a; omega
  | succ fuel ih =>
    intro n hn h0 a
    rw [toDecAux_succ fuel n h0, List.foldl_append]
    have hmod : n % 10 < 10 := Nat.mod_lt _ (by norm_num)
    simp only [List.foldl_cons, List.foldl_nil, List.length_append,
      List.length_cons, List.length_nil]
    rw [decVal_decDigit _ hmod]
    by_cases hq : n / 10 = 0
    · have hlt : n < 10 := by omega
      rw [hq, toDecAux_zero]
      simp only [List.foldl_nil, List.length_nil]
      have hme : n % 10 = n := Nat.mod_eq_of_lt hlt
      rw [hme, pow_succ, pow_zero]
      omega
    · have hle : n / 10 ≤ fuel := by
        have := Nat.div_lt_self (Nat.pos_of_ne_zero h0) (by norm_num : 1 < 10)
        omega
      rw [ih _ hle hq a]
      calc 10 * (a * 10 ^ (toDecAux fuel (n / 10)).length + n / 10) + n % 10
          = a * 10 ^ ((toDecAux fuel (n / 10)).length + 1)
            + (10 * (n / 10) + n % 10) := by ring
        _ = a * 10 ^ ((toDecAux fuel (n / 10)).length + 1) + n := by
            rw [Nat.div_add_mod]

theorem fromDec_natToStr (n : Nat) : fromDec (natToStr n).data = n := by
  by_cases h : n = 0
  · simp [natToStr, h, fromDec, decVal]
  · unfold natToStr
    rw [if_neg h]
    show fromDec (toDecAux n n) = n
    unfold fromDec
    rw [foldl_toDecAux n n (le_refl n) h 0]
    simp

theorem natToStr_injective : Function.Injective natToStr := by
  intro m n h
  have hm := fromDec_natToStr m
  have hn := fromDec_natToStr n
  rw [h] at hm
  omega

theorem toDecAux_digits (fuel : Nat) :
    ∀ n, ∀ c ∈ toDecAux fuel n, c.isDigit := by
  induction fuel with
  | zero => intro n c hc; simp [toDecAux] at hc
  | succ fuel ih =>
    intro n c hc
    match n with
    | 0 => simp [toDecAux] at hc
    | n + 1 =>
      simp only [toDecAux, List.mem_append, List.mem_singleton] at hc
      rcases hc with hc | hc
      · exact ih _ c hc
      · subst hc
        have : (n + 1) % 10 < 10 := Nat.mod_lt _ (by norm_num)
        unfold decDigit
        interval_cases h : (n + 1) % 10 <;> decide

theorem natToStr_digits (n : Nat) : ∀ c ∈ (natToStr n).data, c.isDigit := by
  intro c hc
  by_cases h : n = 0
  · simp [natToStr, h] at hc
    subst hc; decide
  · unfold natToStr at hc
    rw [if_neg h] at hc
    exact toDecAux_digits n n c hc

/-- Cell identifier, as built by the f-string
`f"table_{table_idx}_row_{row_idx}_col_{col_idx}"` in `generate_cell_data`. -/
def cellId (tableIdx rowIdx colIdx : Nat) : String :=
  "table_" ++ natToStr tableIdx ++ "_row_" ++ natToStr rowIdx ++ "_col_"
    ++ natToStr colIdx

theorem string_data_append (s t : String) : (s ++ t).data = s.data ++ t.data := rfl

/-- Two all-digit blocks followed by an underscore-separated tail coincide
exactly when the blocks and the tails coincide. -/
theorem digit_block_sep :
    ∀ xs ys a b : List Char, (∀ c ∈ xs, c.isDigit) → (∀ c ∈ ys, c.isDigit) →
      xs ++ '_' :: a = ys ++ '_' :: b → xs = ys ∧ a = b := by
  intro xs
  induction xs with
  | nil =>
    intro ys a b _ hy h
    cases ys with
    | nil => simpa using h
    | cons y ys =>
      simp only [List.nil_append, List.cons_append, List.cons.injEq] at h
      have : y.isDigit := hy y (by simp)
      rw [← h.1] at this
      simp [Char.isDigit] at this
  | cons x xs ih =>
    intro ys a b hx hy h
    cases ys with
    | nil =>
      simp only [List.cons_append, List.nil_append, List.cons.injEq] at h
      have : x.isDigit := hx x (by simp)
      rw [h.1] at this
      simp [Char.isDigit] at this
    | cons y ys =>
      simp only [List.cons_append, List.cons.injEq] at h
      obtain ⟨rfl, h2⟩ := h
      have := ih ys a b (fun c hc => hx c (by simp [hc])) (fun c hc => hy c (by simp [hc])) h2
      exact ⟨by rw [this.1], this.2⟩

theorem string_eq_of_data {s t : String} (h : s.data = t.data) : s = t := by
  cases s with
  | mk d1 =>
    cases t with
    | mk d2 => exact congrArg String.mk h

theorem natToStr_data_inj {m n : Nat} (h : (natToStr m).data = (natToStr n).data) :
    m = n :=
  natToStr_injective (string_eq_of_data h)

theorem cellId_injective {t r c t' r' c' : Nat}
    (h : cellId t r c = cellId t' r' c') : t = t' ∧ r = r' ∧ c = c' := by
  have hd : ("table_".data ++ ((natToStr t).data ++ ('_' :: ("row_".data
        ++ ((natToStr r).data ++ ('_' :: ("col_".data ++ (natToStr c).data))))))) =
      ("table_".data ++ ((natToStr t').data ++ ('_' :: ("row_".data
        ++ ((natToStr r').data ++ ('_' :: ("col_".data ++ (natToStr c').data))))))) := by
    have := congrArg String.data h
    simp only [cellId, string_data_append] at this
    simpa [List.append_assoc] using this
  have h1 := List.append_cancel_left hd
  have h2 := digit_block_sep _ _ _ _ (natToStr_digits t) (natToStr_digits t') h1
  have ht : t = t' := natToStr_data_inj h2.1
  have h3 := List.append_cancel_left h2.2
  have h4 := digit_block_sep _ _ _ _ (natToStr_digits r) (natToStr_digits r') h3
  have hr : r = r' := natToStr_data_inj h4.1
  have h5 := List.append_cancel_left h4.2
  have hc : c = c' := natToStr_data_inj h5
  exact ⟨ht, hr, hc⟩

/-!
Association lists with Python-dict semantics: `dictGet?` returns the value at
the first matching key, and `pySet` (`d[k] = v`) replaces the value at an
existing key in place, appending a fresh binding otherwise.
-/

/-- Python `d.get(k)` / `d[k]` on the association-list model of a dict. -/
def dictGet? {α : Type} : List (String × α) → String → Option α
  | [], _ => none
  | p :: rest, k => if p.1 = k then some p.2 else dictGet? rest k

/-- Python `d[k] = v` on the association-list model of a dict. -/
def pySet {α : Type} : List (String × α) → String → α → List (String × α)
  | [], k, v => [(k, v)]
  | p :: rest, k, v => if p.1 = k then (k, v) :: rest else p :: pySet rest k v

theorem dictGet?_pySet {α : Type} (d : List (String × α)) (k k' : String) (v : α) :
    dictGet? (pySet d k v) k' = if k = k' then some v else dictGet? d k' := by
  induction d with
  | nil =>
    by_cases h : k = k' <;> simp [pySet, dictGet?, h]
  | cons p rest ih =>
    by_cases hp : p.1 = k
    · simp only [pySet, if_pos hp, dictGet?]
      by_cases h : k = k'
      · rw [if_pos h, if_pos h]
      · rw [if_neg h, if_neg h, if_neg (show p.1 ≠ k' by rw [hp]; exact h)]
    · simp only [pySet, if_neg hp, dictGet?]
      by_cases hp' : p.1 = k'
      · rw [if_pos hp', if_pos hp', if_neg (fun h => hp (hp'.trans h.symm))]
      · rw [if_neg hp', if_neg hp', ih]

theorem dictGet?_pySet_same {α : Type} (d : List (String × α)) (k : String) (v : α) :
    dictGet? (pySet d k v) k = some v := by
  rw [dictGet?_pySet, if_pos rfl]

theorem dictGet?_pySet_other {α : Type} (d : List (String × α)) (k k' : String)
    (v : α) (h : k ≠ k') : dictGet? (pySet d k v) k' = dictGet? d k' := by
  rw [dictGet?_pySet, if_neg h]

theorem keys_pySet {α : Type} (d : List (String × α)) (k : String) (v : α) :
    (pySet d k v).map Prod.fst = d.map Prod.fst
      ∨ (pySet d k v).map Prod.fst = d.map Prod.fst ++ [k] := by
  induction d with
  | nil => right; simp [pySet]
  | cons p rest ih =>
    by_cases hp : p.1 = k
    · left; simp [pySet, hp]
    · rcases ih with ih | ih
      · left; simp [pySet, hp, ih]
      · right; simp [pySet, hp, ih]

theorem nodupKeys_pySet {α : Type} (d : List (String × α)) (k : String) (v : α)
    (h : (d.map Prod.fst).Nodup) : ((pySet d k v).map Prod.fst).Nodup := by
  induction d with
  | nil => simp [pySet]
  | cons p rest ih =>
    simp only [List.map_cons, List.nodup_cons] at h
    by_cases hp : p.1 = k
    · simp only [pySet, if_pos hp, List.map_cons, List.nodup_cons]
      exact ⟨by rw [← hp]; exact h.1, h.2⟩
    · simp only [pySet, if_neg hp, List.map_cons, List.nodup_cons]
      refine ⟨fun hmem => ?_, ih h.2⟩
      rcases keys_pySet rest k v with hk | hk
      · rw [hk] at hmem; exact h.1 hmem
      · rw [hk] at hmem
        rcases List.mem_append.mp hmem with hmem | hmem
        · exact h.1 hmem
        · simp at hmem; exact hp hmem

/-!
Embedding of `generate_cell_data` (convert_guides.py, lines 136-171).
A `NormalizedTable` is the output of `convert_table`: a header row plus body
rows of HTML-lite cell strings.  A `CellEntry` is one `cellData` value;
`lastUpdated = none` models the JSON key being absent.
-/

structure NormalizedTable where
  headers : List String
  rows : List (List String)
deriving DecidableEq

structure CellEntry where
  content : String
  summary : String
  lastUpdated : Option String
deriving DecidableEq

/-- The guard `if cell and cell.strip() and cell.strip() != "&nbsp;"` of
`generate_cell_data`. -/
def rawKeep (s : String) : Prop :=
  s ≠ "" ∧ pyStrip s ≠ "" ∧ pyStrip s ≠ "&nbsp;"

instance (s : String) : Decidable (rawKeep s) := by
  unfold rawKeep; infer_instance

/-- One cell of `generate_cell_data`'s double loop: keep the cell when the
raw guard holds and the tag-stripped content is non-empty. -/
def cellStep (t r c : Nat) (s : String) (acc : List (String × CellEntry)) :
    List (String × CellEntry) :=
  if rawKeep s then
    let normalized := pyStrip (removeTags s)
    if normalized ≠ "" then
      pySet acc (cellId t r c) ⟨normalized, "", none⟩
    else acc
  else acc

/-- The `enumerate` over one row's cells (column indices from `c`). -/
def rowCells (t r : Nat) : Nat → List String → List (String × CellEntry) →
    List (String × CellEntry)
  | _, [], acc => acc
  | c, s :: rest, acc => rowCells t r (c + 1) rest (cellStep t r c s acc)

/-- The `enumerate(table["rows"], start=1)` loop (row indices from `r`). -/
def tableRows (t : Nat) : Nat → List (List String) → List (String × CellEntry) →
    List (String × CellEntry)
  | _, [], acc => acc
  | r, row :: rest, acc => tableRows t (r + 1) rest (rowCells t r 0 row acc)

/-- One table of `generate_cell_data`: headers as row 0, body rows from 1. -/
def tableStep (t : Nat) (tab : NormalizedTable) (acc : List (String × CellEntry)) :
    List (String × CellEntry) :=
  tableRows t 1 tab.rows (rowCells t 0 0 tab.headers acc)

/-- The `enumerate(tables, start=1)` loop. -/
def tablesAux : Nat → List NormalizedTable → List (String × CellEntry) →
    List (String × CellEntry)
  | _, [], acc => acc
  | t, tab :: rest, acc => tablesAux (t + 1) rest (tableStep t tab acc)

/-- `generate_cell_data(tables)`: the fresh per-cell annotation map. -/
def generate_cell_data (tables : List NormalizedTable) : List (String × CellEntry) :=
  tablesAux 1 tables []

/-!
Embedding of the annotation merge inside `convert_document`
(convert_guides.py, lines 191-225).  `buildContentToSummary` is the
`content_to_summary` loop, `mergeEntry` the body of the merge loop for one
fresh entry.  Because `new_cell_data` is a Python dict (unique keys) and the
loop touches each key exactly once, the loop is a map over the fresh items.
-/

structure CtsVal where
  summary : String
  lastUpdated : String
deriving DecidableEq

/-- One iteration of the `content_to_summary` construction over a previously
persisted entry. -/
def ctsStep (acc : List (String × CtsVal)) (p : CellEntry) : List (String × CtsVal) :=
  let content := pyStrip p.content
  let summary := pyStrip p.summary
  if content ≠ "" ∧ summary ≠ "" ∧ summary ≠ "no data" then
    let normalizedContent := pyStrip (removeTags content)
    if normalizedContent ≠ "" then
      pySet acc normalizedContent ⟨summary, p.lastUpdated.getD ""⟩
    else acc
  else acc

/-- The `content_to_summary` lookup built from the previous `cellData`. -/
def buildContentToSummary (prev : List (String × CellEntry)) : List (String × CtsVal) :=
  (prev.map Prod.snd).foldl ctsStep []

/-- The merge-loop body for one fresh entry `(cellId, e)`: exact-id match
first, content-based migration otherwise. -/
def mergeEntry (prev : List (String × CellEntry)) (cts : List (String × CtsVal))
    (k : String) (e : CellEntry) : CellEntry :=
  match dictGet? prev k with
  | some p =>
    { e with
      summary := if p.summary ≠ "" then p.summary else e.summary,
      lastUpdated := if p.lastUpdated.isSome then p.lastUpdated else e.lastUpdated }
  | none =>
    match dictGet? cts (pyStrip (removeTags (pyStrip e.content))) with
    | some m =>
      { e with
        summary := m.summary,
        lastUpdated := if m.lastUpdated ≠ "" then some m.lastUpdated else e.lastUpdated }
    | none => e

/-- The full merge of `convert_document`: start from the fresh map and
reconcile every fresh entry against the previous map. -/
def merge_cell_data (fresh prev : List (String × CellEntry)) :
    List (String × CellEntry) :=
  fresh.map (fun p => (p.1, mergeEntry prev (buildContentToSummary prev) p.1 p.2))

/-!
Embedding of the table geometry used by `render_table_html` and
`get_rowspan` (convert_guides.py, lines 262-313 and 486-510).  A `GCell` is
one physical grid position: `tcId` models `id(cell._tc)` (the identity used
for the per-row duplicate skip) and `vMerge` models the `tcPr.vMerge`
element — `none` when the element is absent, `some v` when present with
optional `val` attribute `v`.
-/

structure GCell where
  tcId : Nat
  vMerge : Option (Option String)
deriving DecidableEq

/-- The downward scan of `get_rowspan`: count rows whose cell at `colIdx`
continues the merge (`vMerge` present with val absent or `"continue"`);
stop at the first restart/other value, missing element, or short row. -/
def scanSpan (colIdx : Nat) : List (List GCell) → Nat
  | [] => 0
  | row :: rest =>
    match row.get? colIdx with
    | none => 0
    | some cell =>
      match cell.vMerge with
      | none => 0
      | some v =>
        if v = none ∨ v = some "continue" then 1 + scanSpan colIdx rest else 0

/-- `get_rowspan(table, row_idx, col_idx, cell)`. -/
def get_rowspan (table : List (List GCell)) (rowIdx colIdx : Nat) (cell : GCell) :
    Nat :=
  match cell.vMerge with
  | none => 1
  | some v =>
    if v ≠ none ∧ v ≠ some "restart" then 0
    else 1 + scanSpan colIdx (table.drop (rowIdx + 1))

/-- The per-row cell loop of `render_table_html`, projected to geometry: the
returned list holds `(col_idx, rowspan)` for every emitted `<td>`/`<th>`,
in order; `seen` is the `rendered_cells` identity set, to which every
not-yet-seen cell is added before its row span is checked. -/
def renderRowAux (table : List (List GCell)) (rowIdx : Nat) :
    Nat → List Nat → List GCell → List (Nat × Nat)
  | _, _, [] => []
  | colIdx, seen, cell :: rest =>
    if cell.tcId ∈ seen then renderRowAux table rowIdx (colIdx + 1) seen rest
    else if get_rowspan table rowIdx colIdx cell = 0 then
      renderRowAux table rowIdx (colIdx + 1) (cell.tcId :: seen) rest
    else
      (colIdx, get_rowspan table rowIdx colIdx cell)
        :: renderRowAux table rowIdx (colIdx + 1) (cell.tcId :: seen) rest

/-- The `enumerate(table.rows)` loop of `render_table_html` (row indices
from `i`), projected to geometry. -/
def renderRowsAux (table : List (List GCell)) : Nat → List (List GCell) →
    List (List (Nat × Nat))
  | _, [] => []
  | i, row :: rest => renderRowAux table i 0 [] row :: renderRowsAux table (i + 1) rest

/-- Geometry of the whole rendered table: per source row, the list of
rendered cells with their row spans. -/
def renderTableGeometry (table : List (List GCell)) : List (List (Nat × Nat)) :=
  renderRowsAux table 0 table

/-- Sum of the row spans of the cells rendered at column `c`, over all rows
of the table. -/
def columnSpanSum (table : List (List GCell)) (c : Nat) : Nat :=
  ((renderTableGeometry table).map
    (fun cells => ((cells.filter (fun q => q.1 == c)).map Prod.snd).sum)).sum

/-!
Embedding of the border extraction (convert_guides.py, lines 440-454 and
463-466 and 513-564).  A `BorderEl` is one `w:tcBorders` side element:
`val` the `w:val` attribute, `sz` the parsed `w:sz` width (eighths of a
point; `none` models an absent or unparsable attribute), `color` the
`w:color` attribute.
-/

structure BorderEl where
  val : Option String
  sz : Option Nat
  color : Option String
deriving DecidableEq

/-- `BORDER_STYLE_MAP` from convert_guides.py. -/
def BORDER_STYLE_MAP : List (String × String) :=
  [("nil", "none"), ("none", "none"), ("single", "solid"), ("double", "double"),
   ("dashed", "dashed"), ("dotted", "dotted"), ("thick", "solid"),
   ("hairline", "solid"), ("wave", "wavy"), ("dashSmallGap", "dashed"),
   ("dashDot", "dashed"), ("dashDotDot", "dashed"), ("triple", "double")]

/-- Model of Python `f"{x:.2f}"` for the exactly-representable float
`n / 8.0`: hundredths rounded half-to-even, rendered with two decimals. -/
def pyFormat2f (n : Nat) : String :=
  let t := n * 25
  let h := if t % 2 = 0 then t / 2 else if (t / 2) % 2 = 0 then t / 2 else t / 2 + 1
  natToStr (h / 100) ++ "." ++
    (if h % 100 < 10 then "0" ++ natToStr (h % 100) else natToStr (h % 100))

/-- The per-side body of `get_cell_borders`: CSS value for one border side.
`"nil"`/`"none"` styles emit `"none"`; otherwise the width is the size in
eighths of a point divided by 8 when parsed and non-zero (Python truthiness
of `size_pt`), defaulting to `"1pt"`; unrecognized styles fall back to
`"solid"` and absent/`"auto"` colors to `"#13294b"`. -/
def border_side_css (b : BorderEl) : String :=
  if b.val = some "nil" ∨ b.val = some "none" then "none"
  else
    let style :=
      match b.val with
      | some v => (dictGet? BORDER_STYLE_MAP v).getD "solid"
      | none => "solid"
    let width :=
      match b.sz with
      | some n => if n ≠ 0 then pyFormat2f n ++ "pt" else "1pt"
      | none => "1pt"
    let color :=
      match b.color with
      | some c => if c ≠ "" ∧ c ≠ "auto" then "#" ++ c else "#13294b"
      | none => "#13294b"
    width ++ " " ++ style ++ " " ++ color

/-- The four-side assembly of `get_cell_borders`: absent side elements are
skipped, present ones map to their CSS declaration. -/
def get_cell_borders (top bottom left right : Option BorderEl) :
    List (String × String) :=
  (([("border-top", top), ("border-bottom", bottom), ("border-left", left),
     ("border-right", right)].filterMap
    (fun p => p.2.map (fun b => (p.1, border_side_css b)))))

/-!
Lemmas about the annotation merge.
-/

/-- Normalized content, as computed in both the `content_to_summary` build
and the content-migration branch of the merge:
`re.sub(r"<[^>]+>", "", content.strip()).strip()`. -/
def normContent (s : String) : String :=
  pyStrip (removeTags (pyStrip s))

theorem normContent_ne_empty {s : String} (h : normContent s ≠ "") :
    pyStrip s ≠ "" := by
  intro he
  apply h
  rw [normContent, he]
  rfl

theorem mergeEntry_some (prev : List (String × CellEntry))
    (cts : List (String × CtsVal)) (k : String) (e p : CellEntry)
    (h : dictGet? prev k = some p) :
    mergeEntry prev cts k e =
      { e with
        summary := if p.summary ≠ "" then p.summary else e.summary,
        lastUpdated := if p.lastUpdated.isSome then p.lastUpdated else e.lastUpdated } := by
  unfold mergeEntry
  rw [h]

theorem mergeEntry_none_hit (prev : List (String × CellEntry))
    (cts : List (String × CtsVal)) (k : String) (e : CellEntry) (m : CtsVal)
    (h : dictGet? prev k = none)
    (hm : dictGet? cts (normContent e.content) = some m) :
    mergeEntry prev cts k e =
      { e with
        summary := m.summary,
        lastUpdated := if m.lastUpdated ≠ "" then some m.lastUpdated else e.lastUpdated } := by
  rw [normContent] at hm
  simp only [mergeEntry, h, hm]

theorem mergeEntry_none_miss (prev : List (String × CellEntry))
    (cts : List (String × CtsVal)) (k : String) (e : CellEntry)
    (h : dictGet? prev k = none)
    (hm : dictGet? cts (normContent e.content) = none) :
    mergeEntry prev cts k e = e := by
  rw [normContent] at hm
  simp only [mergeEntry, h, hm]

theorem mergeEntry_content (prev : List (String × CellEntry))
    (cts : List (String × CtsVal)) (k : String) (e : CellEntry) :
    (mergeEntry prev cts k e).content = e.content := by
  unfold mergeEntry
  cases dictGet? prev k with
  | some p => rfl
  | none =>
    cases dictGet? cts (pyStrip (removeTags (pyStrip e.content))) with
    | some m => rfl
    | none => rfl

/-- Every value stored in the `content_to_summary` lookup has a non-empty,
non-sentinel summary (the stripped summary of the contributing entry). -/
theorem cts_fold_summary :
    ∀ (l : List CellEntry) (acc : List (String × CtsVal)),
      (∀ key m, dictGet? acc key = some m → m.summary ≠ "" ∧ m.summary ≠ "no data") →
      ∀ key m, dictGet? (l.foldl ctsStep acc) key = some m →
        m.summary ≠ "" ∧ m.summary ≠ "no data" := by
  intro l
  induction l with
  | nil => intro acc hacc key m h; exact hacc key m h
  | cons p rest ih =>
    intro acc hacc key m h
    refine ih (ctsStep acc p) ?_ key m h
    intro key' m' h'
    unfold ctsStep at h'
    by_cases hc : pyStrip p.content ≠ "" ∧ pyStrip p.summary ≠ "" ∧ pyStrip p.summary ≠ "no data"
    · rw [if_pos hc] at h'
      by_cases hn : pyStrip (removeTags (pyStrip p.content)) ≠ ""
      · simp only [if_pos hn] at h'
        rw [dictGet?_pySet] at h'
        by_cases hk : pyStrip (removeTags (pyStrip p.content)) = key'
        · rw [if_pos hk] at h'
          cases h'
          exact ⟨hc.2.1, hc.2.2⟩
        · rw [if_neg hk] at h'
          exact hacc key' m' h'
      · simp only [if_neg hn] at h'
        exact hacc key' m' h'
    · rw [if_neg hc] at h'
      exact hacc key' m' h'

theorem cts_summary (prev : List (String × CellEntry)) (key : String) (m : CtsVal)
    (h : dictGet? (buildContentToSummary prev) key = some m) :
    m.summary ≠ "" ∧ m.summary ≠ "no data" := by
  refine cts_fold_summary (prev.map Prod.snd) [] ?_ key m h
  intro key' m' h'
  simp [dictGet?] at h'

/-- Condition under which a previous entry contributes to the
`content_to_summary` lookup. -/
def ctsCond (p : CellEntry) : Prop :=
  normContent p.content ≠ "" ∧ pyStrip p.summary ≠ "" ∧ pyStrip p.summary ≠ "no data"

instance (p : CellEntry) : Decidable (ctsCond p) := by
  unfold ctsCond; infer_instance

theorem cts_isSome_iff_fold :
    ∀ (l : List CellEntry) (acc : List (String × CtsVal)) (key : String),
      (dictGet? (l.foldl ctsStep acc) key).isSome ↔
        (dictGet? acc key).isSome ∨ ∃ p ∈ l, ctsCond p ∧ normContent p.content = key := by
  intro l
  induction l with
  | nil => intro acc key; simp
  | cons p rest ih =>
    intro acc key
    show (dictGet? (rest.foldl ctsStep (ctsStep acc p)) key).isSome ↔ _
    rw [ih (ctsStep acc p) key]
    have hstep : (dictGet? (ctsStep acc p) key).isSome ↔
        (dictGet? acc key).isSome ∨ (ctsCond p ∧ normContent p.content = key) := by
      unfold ctsStep
      by_cases hc : pyStrip p.content ≠ "" ∧ pyStrip p.summary ≠ "" ∧ pyStrip p.summary ≠ "no data"
      · rw [if_pos hc]
        by_cases hn : pyStrip (removeTags (pyStrip p.content)) ≠ ""
        · simp only [if_pos hn]
          rw [dictGet?_pySet]
          by_cases hk : pyStrip (removeTags (pyStrip p.content)) = key
          · rw [if_pos hk]
            simp only [Option.isSome_some, true_iff]
            right
            exact ⟨⟨hn, hc.2.1, hc.2.2⟩, hk⟩
          · rw [if_neg hk]
            constructor
            · intro h; left; exact h
            · rintro (h | ⟨_, hkey⟩)
              · exact h
              · exact absurd hkey hk
        · simp only [if_neg hn]
          constructor
          · intro h; left; exact h
          · rintro (h | ⟨hcond, hkey⟩)
            · exact h
            · exact absurd hcond.1 (by rw [normContent]; exact fun hx => hn hx)
      · rw [if_neg hc]
        constructor
        · intro h; left; exact h
        · rintro (h | ⟨hcond, hkey⟩)
          · exact h
          · exact absurd ⟨normContent_ne_empty hcond.1, hcond.2.1, hcond.2.2⟩ hc
    rw [hstep]
    constructor
    · rintro (⟨h | h⟩ | ⟨p', hp', h⟩)
      · left; exact h
      · right; exact ⟨p, List.mem_cons_self p rest, h⟩
      · right; exact ⟨p', List.mem_cons_of_mem p hp', h⟩
    · rintro (h | ⟨p', hp', h⟩)
      · left; left; exact h
      · rcases List.mem_cons.mp hp' with rfl | hp'
        · left; right; exact h
        · right; exact ⟨p', hp', h⟩

theorem cts_isSome_iff (prev : List (String × CellEntry)) (key : String) :
    (dictGet? (buildContentToSummary prev) key).isSome ↔
      ∃ p ∈ prev.map Prod.snd, ctsCond p ∧ normContent p.content = key := by
  unfold buildContentToSummary
  rw [cts_isSome_iff_fold]
  simp [dictGet?]

theorem dictGet?_merge (fresh prev : List (String × CellEntry)) (k : String) :
    dictGet? (merge_cell_data fresh prev) k =
      (dictGet? fresh k).map (mergeEntry prev (buildContentToSummary prev) k) := by
  unfold merge_cell_data
  induction fresh with
  | nil => rfl
  | cons p rest ih =>
    simp only [List.map_cons, dictGet?]
    by_cases h : p.1 = k
    · rw [if_pos h, if_pos h, h]
      rfl
    · rw [if_neg h, if_neg h, ih]

theorem dictGet?_of_mem_nodup {α : Type} (l : List (String × α)) (k : String) (e : α)
    (hnd : (l.map Prod.fst).Nodup) (hmem : (k, e) ∈ l) : dictGet? l k = some e := by
  induction l with
  | nil => cases hmem
  | cons p rest ih =>
    simp only [List.map_cons, List.nodup_cons] at hnd
    rcases List.mem_cons.mp hmem with rfl | hmem'
    · simp [dictGet?]
    · have hne : p.1 ≠ k := by
        intro hk
        apply hnd.1
        rw [hk]
        exact List.mem_map_of_mem Prod.fst hmem'
      simp only [dictGet?, if_neg hne]
      exact ih hnd.2 hmem'

theorem mergeEntry_summary_empty (prev : List (String × CellEntry))
    (cts : List (String × CtsVal)) (k : String) (e : CellEntry)
    (hcts : ∀ key m, dictGet? cts key = some m → m.summary ≠ "")
    (h : (mergeEntry prev cts k e).summary = "") : e.summary = "" := by
  rcases hp : dictGet? prev k with _ | p
  · rcases hq : dictGet? cts (normContent e.content) with _ | m
    · rwa [mergeEntry_none_miss prev cts k e hp hq] at h
    · rw [mergeEntry_none_hit prev cts k e m hp hq] at h
      exact absurd h (hcts _ m hq)
  · rw [mergeEntry_some prev cts k e p hp] at h
    simp only at h
    by_cases hs : p.summary = ""
    · rwa [if_neg (by simpa using hs)] at h
    · rw [if_pos hs] at h
      exact absurd h hs

theorem mergeEntry_lu_none (prev : List (String × CellEntry))
    (cts : List (String × CtsVal)) (k : String) (e : CellEntry)
    (h : (mergeEntry prev cts k e).lastUpdated = none) : e.lastUpdated = none := by
  rcases hp : dictGet? prev k with _ | p
  · rcases hq : dictGet? cts (normContent e.content) with _ | m
    · rwa [mergeEntry_none_miss prev cts k e hp hq] at h
    · rw [mergeEntry_none_hit prev cts k e m hp hq] at h
      simp only at h
      by_cases hs : m.lastUpdated = ""
      · rwa [if_neg (fun hne => hne hs)] at h
      · rw [if_pos hs] at h
        cases h
  · rw [mergeEntry_some prev cts k e p hp] at h
    simp only at h
    rcases hl : p.lastUpdated with _ | x
    · rwa [hl, if_neg (by simp)] at h
    · rw [hl, if_pos (by simp)] at h
      cases h

/-- Re-merging an already-merged entry through the exact-CellId branch
returns it unchanged. -/
theorem mergeEntry_restable (m : List (String × CellEntry))
    (cts' : List (String × CtsVal)) (prev : List (String × CellEntry))
    (cts : List (String × CtsVal)) (k : String) (e : CellEntry)
    (hcts : ∀ key mm, dictGet? cts key = some mm → mm.summary ≠ "")
    (hm : dictGet? m k = some (mergeEntry prev cts k e)) :
    mergeEntry m cts' k e = mergeEntry prev cts k e := by
  rw [mergeEntry_some m cts' k e (mergeEntry prev cts k e) hm]
  have hc : (mergeEntry prev cts k e).content = e.content :=
    mergeEntry_content prev cts k e
  have hs0 : (mergeEntry prev cts k e).summary = "" → e.summary = "" :=
    mergeEntry_summary_empty prev cts k e hcts
  have hl0 : (mergeEntry prev cts k e).lastUpdated = none → e.lastUpdated = none :=
    mergeEntry_lu_none prev cts k e
  set r := mergeEntry prev cts k e with hr
  clear_value r
  cases r with
  | mk rc rs rl =>
    simp only at hc hs0 hl0
    subst hc
    simp only [CellEntry.mk.injEq, true_and]
    constructor
    · by_cases h : rs = ""
      · rw [if_neg (by simpa using h), hs0 h, h]
      · rw [if_pos h]
    · rcases rl with _ | x
      · rw [if_neg (by simp), hl0 rfl]
      · rw [if_pos (by simp)]

/-- Keys added by `cellStep` keep the key list duplicate-free. -/
theorem nodupKeys_cellStep (t r c : Nat) (s : String)
    (acc : List (String × CellEntry)) (h : (acc.map Prod.fst).Nodup) :
    ((cellStep t r c s acc).map Prod.fst).Nodup := by
  unfold cellStep
  by_cases h1 : rawKeep s
  · rw [if_pos h1]
    by_cases h2 : pyStrip (removeTags s) ≠ ""
    · simp only [if_pos h2]
      exact nodupKeys_pySet acc _ _ h
    · simpa only [if_neg h2] using h
  · rwa [if_neg h1]

theorem nodupKeys_rowCells (t r : Nat) :
    ∀ (cells : List String) (c : Nat) (acc : List (String × CellEntry)),
      (acc.map Prod.fst).Nodup → ((rowCells t r c cells acc).map Prod.fst).Nodup := by
  intro cells
  induction cells with
  | nil => intro c acc h; exact h
  | cons s rest ih =>
    intro c acc h
    exact ih (c + 1) _ (nodupKeys_cellStep t r c s acc h)

theorem nodupKeys_tableRows (t : Nat) :
    ∀ (rows : List (List String)) (r : Nat) (acc : List (String × CellEntry)),
      (acc.map Prod.fst).Nodup → ((tableRows t r rows acc).map Prod.fst).Nodup := by
  intro rows
  induction rows with
  | nil => intro r acc h; exact h
  | cons row rest ih =>
    intro r acc h
    exact ih (r + 1) _ (nodupKeys_rowCells t r row 0 acc h)

theorem nodupKeys_tablesAux :
    ∀ (tabs : List NormalizedTable) (t : Nat) (acc : List (String × CellEntry)),
      (acc.map Prod.fst).Nodup → ((tablesAux t tabs acc).map Prod.fst).Nodup := by
  intro tabs
  induction tabs with
  | nil => intro t acc h; exact h
  | cons tab rest ih =>
    intro t acc h
    exact ih (t + 1) _
      (nodupKeys_tableRows t tab.rows 1 _ (nodupKeys_rowCells t 0 tab.headers 0 acc h))

theorem nodupKeys_generate (tables : List NormalizedTable) :
    ((generate_cell_data tables).map Prod.fst).Nodup :=
  nodupKeys_tablesAux tables 1 [] (by simp)

/-- C1: for a document whose tables produce the same fresh cell map on two
consecutive conversions, running the annotation merge a second time with the
first merge's output as the previous map yields exactly the same `cellData`
map — same key list and same content, summary and lastUpdated for every
key. -/
theorem c1_merge_idempotent (tables : List NormalizedTable)
    (prev : List (String × CellEntry)) :
    merge_cell_data (generate_cell_data tables)
        (merge_cell_data (generate_cell_data tables) prev)
      = merge_cell_data (generate_cell_data tables) prev := by
  have hnd := nodupKeys_generate tables
  conv_lhs => rw [merge_cell_data]
  conv_rhs => rw [merge_cell_data]
  apply List.map_congr_left
  intro p hp
  have hget : dictGet? (generate_cell_data tables) p.1 = some p.2 :=
    dictGet?_of_mem_nodup _ p.1 p.2 hnd (by simpa using hp)
  have hm : dictGet? (merge_cell_data (generate_cell_data tables) prev) p.1
      = some (mergeEntry prev (buildContentToSummary prev) p.1 p.2) := by
    rw [dictGet?_merge, hget]
    rfl
  have hstable := mergeEntry_restable
    (merge_cell_data (generate_cell_data tables) prev)
    (buildContentToSummary (merge_cell_data (generate_cell_data tables) prev))
    prev (buildContentToSummary prev) p.1 p.2
    (fun key mm hmm => (cts_summary prev key mm hmm).1) hm
  rw [hstable]

/-- C2: each fresh entry is reconciled in two steps with the first match
winning — an exact CellId hit against the previous map copies its
summary/lastUpdated; only when the CellId is absent is the fresh entry's
normalized content looked up in the content-to-summary map, so a shifted
summary lands on the new CellId. -/
theorem c2_two_step_reconciliation (fresh prev : List (String × CellEntry))
    (k : String) (e : CellEntry) (hf : dictGet? fresh k = some e) :
    (∀ p, dictGet? prev k = some p →
      dictGet? (merge_cell_data fresh prev) k
        = some { e with
            summary := if p.summary ≠ "" then p.summary else e.summary,
            lastUpdated := if p.lastUpdated.isSome then p.lastUpdated
              else e.lastUpdated })
    ∧ (dictGet? prev k = none →
        ∀ m, dictGet? (buildContentToSummary prev) (normContent e.content) = some m →
          dictGet? (merge_cell_data fresh prev) k
            = some { e with
                summary := m.summary,
                lastUpdated := if m.lastUpdated ≠ "" then some m.lastUpdated
                  else e.lastUpdated }) := by
  constructor
  · intro p hp
    rw [dictGet?_merge, hf, Option.map_some', mergeEntry_some prev _ k e p hp]
  · intro hp m hm
    rw [dictGet?_merge, hf, Option.map_some',
      mergeEntry_none_hit prev _ k e m hp hm]

/-- Witness for C2: the spec's migration scenario — the summary persisted at
`table_1_row_1_col_0` for content "Aspirin" migrates to the fresh cell
`table_1_row_2_col_0` with the same content after a row is inserted above,
and the old identifier is absent from the merged map. -/
theorem c2_witness :
    dictGet? (merge_cell_data
        [("table_1_row_2_col_0", ⟨"Aspirin", "", none⟩)]
        [("table_1_row_1_col_0", ⟨"Aspirin", "NSAID analgesic", some "2024-01-01"⟩)])
        "table_1_row_2_col_0"
      = some ⟨"Aspirin", "NSAID analgesic", some "2024-01-01"⟩
    ∧ dictGet? (merge_cell_data
        [("table_1_row_2_col_0", ⟨"Aspirin", "", none⟩)]
        [("table_1_row_1_col_0", ⟨"Aspirin", "NSAID analgesic", some "2024-01-01"⟩)])
        "table_1_row_1_col_0" = none := by
  constructor
  · exact ((c2_two_step_reconciliation
      [("table_1_row_2_col_0", ⟨"Aspirin", "", none⟩)]
      [("table_1_row_1_col_0", ⟨"Aspirin", "NSAID analgesic", some "2024-01-01"⟩)]
      "table_1_row_2_col_0" ⟨"Aspirin", "", none⟩ (by decide)).2 (by decide)
      ⟨"NSAID analgesic", "2024-01-01"⟩ (by decide))
  · decide

/-- C7: the merged map's key list equals the fresh map's key list, and a
CellId absent from the fresh map never appears in the merged result. -/
theorem c7_merged_keys (fresh prev : List (String × CellEntry)) :
    (merge_cell_data fresh prev).map Prod.fst = fresh.map Prod.fst
    ∧ ∀ k, dictGet? fresh k = none → dictGet? (merge_cell_data fresh prev) k = none := by
  constructor
  · unfold merge_cell_data
    rw [List.map_map]
    rfl
  · intro k hk
    rw [dictGet?_merge, hk]
    rfl

/-- Witness for C7: key preservation and stale-identifier dropping on a
concrete fresh/previous pair. -/
theorem c7_witness :
    (merge_cell_data [("table_1_row_0_col_0", ⟨"Drug", "", none⟩)]
        [("stale_id", ⟨"Gone", "old summary", none⟩)]).map Prod.fst
      = [("table_1_row_0_col_0", (⟨"Drug", "", none⟩ : CellEntry))].map Prod.fst
    ∧ dictGet? (merge_cell_data [("table_1_row_0_col_0", ⟨"Drug", "", none⟩)]
        [("stale_id", ⟨"Gone", "old summary", none⟩)]) "stale_id" = none := by
  have h := c7_merged_keys [("table_1_row_0_col_0", ⟨"Drug", "", none⟩)]
    [("stale_id", ⟨"Gone", "old summary", none⟩)]
  exact ⟨h.1, h.2 "stale_id" (by decide)⟩

/-- C10: in the exact-CellId branch the sentinel summary "no data" is copied
like any other non-empty summary, so a cell whose identifier is unchanged
keeps its "no data" summary in the merged map. -/
theorem c10_sentinel_copied_on_exact_match (fresh prev : List (String × CellEntry))
    (k : String) (e p : CellEntry) (hf : dictGet? fresh k = some e)
    (hp : dictGet? prev k = some p) (hs : p.summary = "no data") :
    dictGet? (merge_cell_data fresh prev) k
      = some { e with
          summary := "no data",
          lastUpdated := if p.lastUpdated.isSome then p.lastUpdated
            else e.lastUpdated } := by
  rw [dictGet?_merge, hf, Option.map_some', mergeEntry_some prev _ k e p hp, hs]
  rw [if_pos (by decide)]

/-- Witness for C10: a fresh cell whose CellId also exists in the previous
map with summary "no data" retains the sentinel after the merge. -/
theorem c10_witness :
    dictGet? (merge_cell_data [("table_1_row_1_col_0", ⟨"Aspirin", "", none⟩)]
        [("table_1_row_1_col_0", ⟨"Aspirin", "no data", some "2024-01-01"⟩)])
        "table_1_row_1_col_0"
      = some ⟨"Aspirin", "no data", some "2024-01-01"⟩ := by
  have h := c10_sentinel_copied_on_exact_match
    [("table_1_row_1_col_0", ⟨"Aspirin", "", none⟩)]
    [("table_1_row_1_col_0", ⟨"Aspirin", "no data", some "2024-01-01"⟩)]
    "table_1_row_1_col_0" ⟨"Aspirin", "", none⟩
    ⟨"Aspirin", "no data", some "2024-01-01"⟩ (by decide) (by decide) rfl
  exact h

/-- C6: a previous entry feeds the content-to-summary migration lookup
exactly when its normalized content is non-empty and its stripped summary is
non-empty and not the sentinel "no data"; consequently a re-merge never
assigns, via the content-based fallback, a summary to a fresh cell whose
only content matches in the previous map carried the sentinel. -/
theorem c6_sentinel_excluded_from_lookup (prev : List (String × CellEntry)) :
    (∀ key, (dictGet? (buildContentToSummary prev) key).isSome ↔
        ∃ p ∈ prev.map Prod.snd, ctsCond p ∧ normContent p.content = key)
    ∧ ∀ (fresh : List (String × CellEntry)) (k : String) (e : CellEntry),
        dictGet? fresh k = some e → dictGet? prev k = none →
        (∀ p ∈ prev.map Prod.snd,
          normContent p.content = normContent e.content →
            pyStrip p.summary = "no data") →
        dictGet? (merge_cell_data fresh prev) k = some e := by
  constructor
  · exact cts_isSome_iff prev
  · intro fresh k e hf hp hall
    have hmiss : dictGet? (buildContentToSummary prev) (normContent e.content) = none := by
      rcases hq : dictGet? (buildContentToSummary prev) (normContent e.content)
        with _ | m
      · rfl
      · exfalso
        have hsome : (dictGet? (buildContentToSummary prev) (normContent e.content)).isSome := by
          rw [hq]; rfl
        rcases (cts_isSome_iff prev (normContent e.content)).mp hsome
          with ⟨p, hpm, hcond, hkey⟩
        exact hcond.2.2 (hall p hpm hkey)
    rw [dictGet?_merge, hf, Option.map_some',
      mergeEntry_none_miss prev _ k e hp hmiss]

/-- Witness for C6: a previous entry whose summary is the sentinel does not
populate the lookup, and the fresh cell with the same content stays
unfilled after the merge. -/
theorem c6_witness :
    ¬(dictGet? (buildContentToSummary
        [("table_1_row_1_col_0", ⟨"Aspirin", "no data", some "2024-01-01"⟩)])
        "Aspirin").isSome
    ∧ dictGet? (merge_cell_data
        [("table_1_row_2_col_0", ⟨"Aspirin", "", none⟩)]
        [("table_1_row_1_col_0", ⟨"Aspirin", "no data", some "2024-01-01"⟩)])
        "table_1_row_2_col_0"
      = some ⟨"Aspirin", "", none⟩ := by
  have h := c6_sentinel_excluded_from_lookup
    [("table_1_row_1_col_0", ⟨"Aspirin", "no data", some "2024-01-01"⟩)]
  constructor
  · intro hs
    rcases (h.1 "Aspirin").mp hs with ⟨p, hpm, hcond, _⟩
    simp only [List.map_cons, List.map_nil, List.mem_singleton] at hpm
    subst hpm
    exact hcond.2.2 (by decide)
  · exact h.2 [("table_1_row_2_col_0", ⟨"Aspirin", "", none⟩)]
      "table_1_row_2_col_0" ⟨"Aspirin", "", none⟩ (by decide) (by decide)
      (by intro p hpm hnc
          simp only [List.map_cons, List.map_nil, List.mem_singleton] at hpm
          subst hpm
          decide)

/-!
Characterization of `generate_cell_data` by cell position.
-/

theorem cellId_ne_table {t t' r r' c c' : Nat} (h : t ≠ t') :
    cellId t r c ≠ cellId t' r' c' :=
  fun he => h (cellId_injective he).1

theorem cellId_ne_row {t t' r r' c c' : Nat} (h : r ≠ r') :
    cellId t r c ≠ cellId t' r' c' :=
  fun he => h (cellId_injective he).2.1

theorem cellId_ne_col {t t' r r' c c' : Nat} (h : c ≠ c') :
    cellId t r c ≠ cellId t' r' c' :=
  fun he => h (cellId_injective he).2.2

/-- First-of-two on options (`some` wins), used to state how a fold layer
shadows the accumulator it started from. -/
def optOr {α : Type} : Option α → Option α → Option α
  | some a, _ => some a
  | none, b => b

theorem optOr_none_right {α : Type} (o : Option α) : optOr o none = o := by
  cases o <;> rfl

/-- The full condition under which `generate_cell_data` emits an entry for a
cell string: the raw guard plus non-empty tag-stripped content. -/
def keepCell (s : String) : Prop :=
  rawKeep s ∧ pyStrip (removeTags s) ≠ ""

instance (s : String) : Decidable (keepCell s) := by
  unfold keepCell; infer_instance

/-- The entry `generate_cell_data` derives from the cell string at column
`c` of a row, when any. -/
def rowLookup (row : List String) (c : Nat) : Option CellEntry :=
  (row.get? c).bind
    (fun s => if keepCell s then some ⟨pyStrip (removeTags s), "", none⟩ else none)

/-- The entry `generate_cell_data` derives from the cell at row `r`, column
`c` of a normalized table: row 0 is the header row, row `j + 1` the body row
`j`. -/
def tableLookup (tab : NormalizedTable) (r c : Nat) : Option CellEntry :=
  match r with
  | 0 => rowLookup tab.headers c
  | j + 1 => (tab.rows.get? j).bind (fun row => rowLookup row c)

theorem dictGet?_cellStep (t r c : Nat) (s : String)
    (acc : List (String × CellEntry)) (k : String) :
    dictGet? (cellStep t r c s acc) k =
      if k = cellId t r c ∧ keepCell s
        then some ⟨pyStrip (removeTags s), "", none⟩
        else dictGet? acc k := by
  unfold cellStep
  by_cases h1 : rawKeep s
  · rw [if_pos h1]
    by_cases h2 : pyStrip (removeTags s) ≠ ""
    · simp only [if_pos h2]
      rw [dictGet?_pySet]
      by_cases hk : cellId t r c = k
      · rw [if_pos hk, if_pos ⟨hk.symm, h1, h2⟩]
      · rw [if_neg hk, if_neg (fun hx => hk hx.1.symm)]
    · simp only [if_neg h2]
      rw [if_neg (fun hx => h2 hx.2.2)]
  · rw [if_neg h1, if_neg (fun hx => h1 hx.2.1)]

theorem dictGet?_rowCells_ge (t r : Nat) :
    ∀ (cells : List String) (c₀ : Nat) (acc : List (String × CellEntry)) (k : String),
      (∀ c, c₀ ≤ c → k ≠ cellId t r c) →
      dictGet? (rowCells t r c₀ cells acc) k = dictGet? acc k := by
  intro cells
  induction cells with
  | nil => intro c₀ acc k _; rfl
  | cons s rest ih =>
    intro c₀ acc k hk
    show dictGet? (rowCells t r (c₀ + 1) rest (cellStep t r c₀ s acc)) k = _
    rw [ih (c₀ + 1) _ k (fun c hc => hk c (by omega))]
    rw [dictGet?_cellStep]
    rw [if_neg (fun hx => hk c₀ (le_refl c₀) hx.1)]

theorem rowLookup_cons_zero (s : String) (rest : List String) :
    rowLookup (s :: rest) 0 =
      if keepCell s then some ⟨pyStrip (removeTags s), "", none⟩ else none := rfl

theorem rowLookup_cons_succ (s : String) (rest : List String) (j : Nat) :
    rowLookup (s :: rest) (j + 1) = rowLookup rest j := rfl

theorem dictGet?_rowCells_at (t r : Nat) :
    ∀ (cells : List String) (c₀ j : Nat) (acc : List (String × CellEntry)),
      dictGet? (rowCells t r c₀ cells acc) (cellId t r (c₀ + j)) =
        optOr (rowLookup cells j) (dictGet? acc (cellId t r (c₀ + j))) := by
  intro cells
  induction cells with
  | nil => intro c₀ j acc; cases j <;> rfl
  | cons s rest ih =>
    intro c₀ j acc
    show dictGet? (rowCells t r (c₀ + 1) rest (cellStep t r c₀ s acc)) _ = _
    cases j with
    | zero =>
      rw [dictGet?_rowCells_ge t r rest (c₀ + 1) _ _
        (fun c hc => cellId_ne_col (by omega))]
      rw [dictGet?_cellStep, rowLookup_cons_zero]
      by_cases hkeep : keepCell s
      · rw [if_pos ⟨rfl, hkeep⟩, if_pos hkeep]
        rfl
      · rw [if_neg (fun hx => hkeep hx.2), if_neg hkeep]
        rfl
    | succ j' =>
      have e1 : c₀ + (j' + 1) = (c₀ + 1) + j' := by omega
      rw [e1, ih (c₀ + 1) j' (cellStep t r c₀ s acc)]
      rw [dictGet?_cellStep, if_neg (fun hx => cellId_ne_col (t := t) (r := r)
        (show (c₀ + 1) + j' ≠ c₀ by omega) hx.1)]
      rw [rowLookup_cons_succ]

theorem dictGet?_tableRows_ge (t : Nat) :
    ∀ (rows : List (List String)) (r₀ : Nat) (acc : List (String × CellEntry))
      (k : String),
      (∀ r c, r₀ ≤ r → k ≠ cellId t r c) →
      dictGet? (tableRows t r₀ rows acc) k = dictGet? acc k := by
  intro rows
  induction rows with
  | nil => intro r₀ acc k _; rfl
  | cons row rest ih =>
    intro r₀ acc k hk
    show dictGet? (tableRows t (r₀ + 1) rest (rowCells t r₀ 0 row acc)) k = _
    rw [ih (r₀ + 1) _ k (fun r c hr => hk r c (by omega))]
    exact dictGet?_rowCells_ge t r₀ row 0 acc k
      (fun c _ => hk r₀ c (le_refl r₀))

theorem dictGet?_tableRows_at (t : Nat) :
    ∀ (rows : List (List String)) (r₀ i c : Nat) (acc : List (String × CellEntry)),
      dictGet? (tableRows t r₀ rows acc) (cellId t (r₀ + i) c) =
        optOr ((rows.get? i).bind (fun row => rowLookup row c))
          (dictGet? acc (cellId t (r₀ + i) c)) := by
  intro rows
  induction rows with
  | nil => intro r₀ i c acc; cases i <;> rfl
  | cons row rest ih =>
    intro r₀ i c acc
    show dictGet? (tableRows t (r₀ + 1) rest (rowCells t r₀ 0 row acc)) _ = _
    cases i with
    | zero =>
      rw [dictGet?_tableRows_ge t rest (r₀ + 1) _ _
        (fun r c' hr => cellId_ne_row (by omega))]
      have h0 := dictGet?_rowCells_at t r₀ row 0 c acc
      rw [Nat.zero_add] at h0
      exact h0
    | succ i' =>
      have e1 : r₀ + (i' + 1) = (r₀ + 1) + i' := by omega
      rw [e1, ih (r₀ + 1) i' c (rowCells t r₀ 0 row acc)]
      rw [dictGet?_rowCells_ge t r₀ row 0 acc _
        (fun c' _ => cellId_ne_row (show (r₀ + 1) + i' ≠ r₀ by omega))]
      rfl

theorem dictGet?_tableStep_at (t : Nat) (tab : NormalizedTable)
    (acc : List (String × CellEntry)) (r c : Nat) :
    dictGet? (tableStep t tab acc) (cellId t r c) =
      optOr (tableLookup tab r c) (dictGet? acc (cellId t r c)) := by
  unfold tableStep
  cases r with
  | zero =>
    rw [dictGet?_tableRows_ge t tab.rows 1 _ _
      (fun r' c' hr => cellId_ne_row (by omega))]
    have h0 := dictGet?_rowCells_at t 0 tab.headers 0 c acc
    rw [Nat.zero_add] at h0
    exact h0
  | succ j =>
    have h1 := dictGet?_tableRows_at t tab.rows 1 j c (rowCells t 0 0 tab.headers acc)
    rw [show (1 : Nat) + j = j + 1 from by omega] at h1
    rw [h1]
    rw [dictGet?_rowCells_ge t 0 tab.headers 0 acc _
      (fun c' _ => cellId_ne_row (show j + 1 ≠ 0 by omega))]
    rfl

theorem dictGet?_tableStep_other (t : Nat) (tab : NormalizedTable)
    (acc : List (String × CellEntry)) (k : String)
    (hk : ∀ r c, k ≠ cellId t r c) :
    dictGet? (tableStep t tab acc) k = dictGet? acc k := by
  unfold tableStep
  rw [dictGet?_tableRows_ge t tab.rows 1 _ k (fun r c _ => hk r c)]
  exact dictGet?_rowCells_ge t 0 tab.headers 0 acc k (fun c _ => hk 0 c)

theorem dictGet?_tablesAux_ge :
    ∀ (tabs : List NormalizedTable) (t₀ : Nat) (acc : List (String × CellEntry))
      (k : String),
      (∀ t r c, t₀ ≤ t → k ≠ cellId t r c) →
      dictGet? (tablesAux t₀ tabs acc) k = dictGet? acc k := by
  intro tabs
  induction tabs with
  | nil => intro t₀ acc k _; rfl
  | cons tab rest ih =>
    intro t₀ acc k hk
    show dictGet? (tablesAux (t₀ + 1) rest (tableStep t₀ tab acc)) k = _
    rw [ih (t₀ + 1) _ k (fun t r c ht => hk t r c (by omega))]
    exact dictGet?_tableStep_other t₀ tab acc k (fun r c => hk t₀ r c (le_refl t₀))

theorem dictGet?_tablesAux_at :
    ∀ (tabs : List NormalizedTable) (t₀ i r c : Nat) (acc : List (String × CellEntry)),
      dictGet? (tablesAux t₀ tabs acc) (cellId (t₀ + i) r c) =
        optOr ((tabs.get? i).bind (fun tab => tableLookup tab r c))
          (dictGet? acc (cellId (t₀ + i) r c)) := by
  intro tabs
  induction tabs with
  | nil => intro t₀ i r c acc; cases i <;> rfl
  | cons tab rest ih =>
    intro t₀ i r c acc
    show dictGet? (tablesAux (t₀ + 1) rest (tableStep t₀ tab acc)) _ = _
    cases i with
    | zero =>
      rw [dictGet?_tablesAux_ge rest (t₀ + 1) _ _
        (fun t r' c' ht => cellId_ne_table (by omega))]
      exact dictGet?_tableStep_at t₀ tab acc r c
    | succ i' =>
      have e1 : t₀ + (i' + 1) = (t₀ + 1) + i' := by omega
      rw [e1, ih (t₀ + 1) i' r c (tableStep t₀ tab acc)]
      rw [dictGet?_tableStep_other t₀ tab acc _
        (fun r' c' => cellId_ne_table (show (t₀ + 1) + i' ≠ t₀ by omega))]
      rfl

/-- Position-wise characterization of `generate_cell_data`. -/
theorem dictGet?_generate (tables : List NormalizedTable) (i r c : Nat) :
    dictGet? (generate_cell_data tables) (cellId (1 + i) r c) =
      (tables.get? i).bind (fun tab => tableLookup tab r c) := by
  unfold generate_cell_data
  rw [dictGet?_tablesAux_at tables 1 i r c []]
  rw [show dictGet? ([] : List (String × CellEntry)) (cellId (1 + i) r c) = none
    from rfl]
  exact optOr_none_right _

/-- Every key of the generated map is a `cellId` with 1-based table index. -/
theorem generate_keys_shape (tables : List NormalizedTable) (k : String)
    (h : (dictGet? (generate_cell_data tables) k).isSome) :
    ∃ t r c, 1 ≤ t ∧ k = cellId t r c := by
  by_contra hno
  push_neg at hno
  have hg := dictGet?_tablesAux_ge tables 1 [] k (fun t r c ht => hno t r c ht)
  unfold generate_cell_data at h
  rw [hg] at h
  simp [dictGet?] at h

/-- C8 counterexample: the claim's "only if" direction fails — the cell
string `"<b></b>&nbsp;"` passes the raw guard (its strip is not `"&nbsp;"`),
yet its normalized content (tags removed, stripped) is exactly the
non-breaking-space placeholder `"&nbsp;"`, and the generated map does
contain an entry for it. -/
theorem c8_counterexample :
    dictGet? (generate_cell_data [⟨["<b></b>&nbsp;"], []⟩]) "table_1_row_0_col_0"
      = some ⟨"&nbsp;", "", none⟩
    ∧ pyStrip (removeTags "<b></b>&nbsp;") = "&nbsp;" := by
  constructor
  · decide
  · decide

/-- C8 (amended): the generated map has an entry at the position of a cell
string `s` exactly when `s` is non-empty, `s.strip()` is non-empty and not
the raw placeholder `"&nbsp;"`, and the tag-stripped strip of `s` is
non-empty (`keepCell`); the entry's content is that normalized string and
every key of the map follows the grammar
`table_<1-based>_row_<0-based>_col_<0-based>` with row 0 the header row. -/
theorem c8_amended_cell_map (tables : List NormalizedTable) :
    (∀ i tab r c, tables.get? i = some tab →
      dictGet? (generate_cell_data tables) (cellId (1 + i) r c) = tableLookup tab r c)
    ∧ (∀ k, (dictGet? (generate_cell_data tables) k).isSome →
        ∃ t r c, 1 ≤ t ∧ k = cellId t r c) := by
  constructor
  · intro i tab r c hi
    rw [dictGet?_generate, hi]
    rfl
  · exact generate_keys_shape tables

/-- Witness for C8 (amended): on a concrete table, the body cell "Aspirin"
(row 1 after the header row) yields an entry at `table_1_row_1_col_0`, while
the raw placeholder cell `"&nbsp;"` and the whitespace header yield none. -/
theorem c8_witness :
    dictGet? (generate_cell_data [⟨["Drug", " "], [["Aspirin", "&nbsp;"]]⟩]) (cellId 1 1 0)
      = tableLookup ⟨["Drug", " "], [["Aspirin", "&nbsp;"]]⟩ 1 0
    ∧ tableLookup ⟨["Drug", " "], [["Aspirin", "&nbsp;"]]⟩ 1 0
      = some ⟨"Aspirin", "", none⟩
    ∧ dictGet? (generate_cell_data [⟨["Drug", " "], [["Aspirin", "&nbsp;"]]⟩]) (cellId 1 1 1)
      = tableLookup ⟨["Drug", " "], [["Aspirin", "&nbsp;"]]⟩ 1 1
    ∧ tableLookup ⟨["Drug", " "], [["Aspirin", "&nbsp;"]]⟩ 1 1 = none
    ∧ dictGet? (generate_cell_data [⟨["Drug", " "], [["Aspirin", "&nbsp;"]]⟩]) (cellId 1 0 1)
      = tableLookup ⟨["Drug", " "], [["Aspirin", "&nbsp;"]]⟩ 0 1
    ∧ tableLookup ⟨["Drug", " "], [["Aspirin", "&nbsp;"]]⟩ 0 1 = none := by
  refine ⟨(c8_amended_cell_map _).1 0 _ 1 0 rfl, by decide,
    (c8_amended_cell_map _).1 0 _ 1 1 rfl, by decide,
    (c8_amended_cell_map _).1 0 _ 0 1 rfl, by decide⟩

/-!
Geometry: row spans, merge-continuation skipping, and the per-column span
sum of the rendered table.
-/

/-- Whether a row continues a vertical merge at column `c`: its cell there
exists and carries a `vMerge` element with val absent or `"continue"`. -/
def contPred (c : Nat) (row : List GCell) : Bool :=
  match row.get? c with
  | some cell =>
    match cell.vMerge with
    | some v => decide (v = none ∨ v = some "continue")
    | none => false
  | none => false

theorem scanSpan_cons (c : Nat) (row : List GCell) (rest : List (List GCell)) :
    scanSpan c (row :: rest) =
      match row.get? c with
      | none => 0
      | some cell =>
        match cell.vMerge with
        | none => 0
        | some v =>
          if v = none ∨ v = some "continue" then 1 + scanSpan c rest else 0 := rfl

theorem contPred_eq (c : Nat) (row : List GCell) :
    contPred c row =
      match row.get? c with
      | some cell =>
        match cell.vMerge with
        | some v => decide (v = none ∨ v = some "continue")
        | none => false
      | none => false := rfl

theorem scanSpan_eq_takeWhile (c : Nat) :
    ∀ rows, scanSpan c rows = (rows.takeWhile (contPred c)).length := by
  intro rows
  induction rows with
  | nil => rfl
  | cons row rest ih =>
    rw [scanSpan_cons, List.takeWhile_cons, contPred_eq]
    rcases hg : row.get? c with _ | cell
    · rfl
    · rcases hv : cell.vMerge with _ | v
      · simp [hv]
      · by_cases hc : v = none ∨ v = some "continue"
        · simp [hv, hc, ih, Nat.add_comm]
        · simp [hv, hc]

/-- C4: a RESTART cell's computed row span is 1 plus the number of
contiguous rows directly below it whose cell at the same column continues
the merge (vMerge present with val absent or "continue"), the scan stopping
at the first restart/other marker, missing vMerge element, or row too short
to have a cell at that column. -/
theorem c4_restart_rowspan (table : List (List GCell)) (rowIdx colIdx : Nat)
    (cell : GCell) (h : cell.vMerge = some (some "restart")) :
    get_rowspan table rowIdx colIdx cell =
      1 + ((table.drop (rowIdx + 1)).takeWhile (contPred colIdx)).length := by
  simp only [get_rowspan, h]
  rw [if_neg (fun hx => hx.2 rfl), scanSpan_eq_takeWhile]

/-- Witness for C4: a restart followed by an explicit continue, a
val-absent continue, and a stopping plain row spans exactly three rows. -/
theorem c4_witness :
    get_rowspan [[⟨0, some (some "restart")⟩], [⟨1, some (some "continue")⟩],
        [⟨2, some none⟩], [⟨3, none⟩], [⟨4, some (some "continue")⟩]] 0 0
        ⟨0, some (some "restart")⟩
      = 1 + (([[⟨1, some (some "continue")⟩], [⟨2, some none⟩], [⟨3, none⟩],
          [⟨4, some (some "continue")⟩]] : List (List GCell)).takeWhile
            (contPred 0)).length
    ∧ get_rowspan [[⟨0, some (some "restart")⟩], [⟨1, some (some "continue")⟩],
        [⟨2, some none⟩], [⟨3, none⟩], [⟨4, some (some "continue")⟩]] 0 0
        ⟨0, some (some "restart")⟩ = 3 := by
  constructor
  · exact c4_restart_rowspan _ 0 0 ⟨0, some (some "restart")⟩ rfl
  · decide

/-- Every rendered cell descriptor comes from a position of the row, carries
that position's column index and its non-zero row span. -/
theorem renderRowAux_mem (table : List (List GCell)) (rowIdx : Nat) :
    ∀ (cells : List GCell) (c₀ : Nat) (seen : List Nat) (q : Nat × Nat),
      q ∈ renderRowAux table rowIdx c₀ seen cells →
      ∃ j cell, cells.get? j = some cell ∧ q.1 = c₀ + j
        ∧ q.2 = get_rowspan table rowIdx (c₀ + j) cell ∧ q.2 ≠ 0 := by
  intro cells
  induction cells with
  | nil => intro c₀ seen q hq; simp [renderRowAux] at hq
  | cons cell rest ih =>
    intro c₀ seen q hq
    unfold renderRowAux at hq
    by_cases h1 : cell.tcId ∈ seen
    · rw [if_pos h1] at hq
      obtain ⟨j, cell', hg, hc, hs, hn⟩ := ih (c₀ + 1) seen q hq
      refine ⟨j + 1, cell', by simpa using hg, by omega, ?_, hn⟩
      rw [show c₀ + (j + 1) = (c₀ + 1) + j from by omega]
      exact hs
    · rw [if_neg h1] at hq
      by_cases h2 : get_rowspan table rowIdx c₀ cell = 0
      · rw [if_pos h2] at hq
        obtain ⟨j, cell', hg, hc, hs, hn⟩ := ih (c₀ + 1) (cell.tcId :: seen) q hq
        refine ⟨j + 1, cell', by simpa using hg, by omega, ?_, hn⟩
        rw [show c₀ + (j + 1) = (c₀ + 1) + j from by omega]
        exact hs
      · rw [if_neg h2] at hq
        rcases List.mem_cons.mp hq with rfl | hq'
        · exact ⟨0, cell, rfl, rfl, rfl, h2⟩
        · obtain ⟨j, cell', hg, hc, hs, hn⟩ := ih (c₀ + 1) (cell.tcId :: seen) q hq'
          refine ⟨j + 1, cell', by simpa using hg, by omega, ?_, hn⟩
          rw [show c₀ + (j + 1) = (c₀ + 1) + j from by omega]
          exact hs

/-- C5: a cell whose own vMerge val is CONTINUE gets row span 0 and is never
emitted as a rendered cell of its row. -/
theorem c5_continue_skipped (table : List (List GCell)) (rowIdx colIdx : Nat)
    (row : List GCell) (cell : GCell) (hrow : table.get? rowIdx = some row)
    (hcell : row.get? colIdx = some cell)
    (hv : cell.vMerge = some (some "continue")) :
    get_rowspan table rowIdx colIdx cell = 0
    ∧ ∀ rs, (colIdx, rs) ∉ renderRowAux table rowIdx 0 [] row := by
  have h0 : get_rowspan table rowIdx colIdx cell = 0 := by
    simp only [get_rowspan, hv]
    rw [if_pos (by decide)]
  refine ⟨h0, fun rs hmem => ?_⟩
  obtain ⟨j, cell', hg, hc, hs, hn⟩ :=
    renderRowAux_mem table rowIdx row 0 [] (colIdx, rs) hmem
  simp only at hc hs
  have hj : j = colIdx := by omega
  subst hj
  rw [hg] at hcell
  cases hcell
  rw [show (0 : Nat) + j = j from by omega] at hs
  rw [h0] at hs
  exact hn hs

/-- Witness for C5: the CONTINUE cell of a two-row vertical merge yields
span 0 and its row renders no cell at its column. -/
theorem c5_witness :
    get_rowspan [[⟨0, some (some "restart")⟩], [⟨1, some (some "continue")⟩]] 1 0
        ⟨1, some (some "continue")⟩ = 0
    ∧ (0, 1) ∉ renderRowAux [[⟨0, some (some "restart")⟩],
        [⟨1, some (some "continue")⟩]] 1 0 [] [⟨1, some (some "continue")⟩] := by
  have h := c5_continue_skipped
    [[⟨0, some (some "restart")⟩], [⟨1, some (some "continue")⟩]] 1 0
    [⟨1, some (some "continue")⟩] ⟨1, some (some "continue")⟩ rfl rfl rfl
  exact ⟨h.1, h.2 1⟩

/-!
The per-column span-sum invariant.  A column of a table is abstracted to a
list of three-valued merge states; the rendered span sum is computed through
that abstraction.
-/

/-- The three canonical vertical-merge states of the data model: no vMerge
element, RESTART, CONTINUE. -/
inductive VState where
  | vnone
  | vrestart
  | vcontinue
deriving DecidableEq

/-- A cell's vMerge marker is one of the data model's three states (no
synthetic values such as a present element with an unrecognized val). -/
def canonical (cell : GCell) : Prop :=
  cell.vMerge = none ∨ cell.vMerge = some (some "restart")
    ∨ cell.vMerge = some (some "continue")

instance (cell : GCell) : Decidable (canonical cell) := by
  unfold canonical; infer_instance

/-- Classify a canonical cell's merge state. -/
def classify (cell : GCell) : VState :=
  if cell.vMerge = none then VState.vnone
  else if cell.vMerge = some (some "restart") then VState.vrestart
  else VState.vcontinue

/-- Merge state of the cell at column `c` of a row (rows long enough for
`c` always have one). -/
def stateAt (c : Nat) (row : List GCell) : VState :=
  match row.get? c with
  | some cell => classify cell
  | none => VState.vnone

/-- Length of the leading run of CONTINUE states. -/
def cCount (σ : List VState) : Nat :=
  (σ.takeWhile (fun s => s == VState.vcontinue)).length

/-- Row span contributed by a state given the states below it. -/
def spanOf : VState → List VState → Nat
  | VState.vnone, _ => 1
  | VState.vcontinue, _ => 0
  | VState.vrestart, rest => 1 + cCount rest

/-- Total of the row spans contributed along a column. -/
def sumSpans : List VState → Nat
  | [] => 0
  | s :: rest => spanOf s rest + sumSpans rest

theorem cCount_cons (s : VState) (rest : List VState) :
    cCount (s :: rest) = if s = VState.vcontinue then 1 + cCount rest else 0 := by
  by_cases hs : s = VState.vcontinue
  · simp [cCount, List.takeWhile_cons, hs, Nat.add_comm]
  · simp [cCount, List.takeWhile_cons, hs]

theorem cCount_le (σ : List VState) : cCount σ ≤ σ.length := by
  induction σ with
  | nil => exact Nat.le_refl 0
  | cons s rest ih =>
    rw [cCount_cons]
    by_cases hs : s = VState.vcontinue
    · rw [if_pos hs]
      simp only [List.length_cons]
      omega
    · rw [if_neg hs]
      exact Nat.zero_le _

/-- Orphan-continuation freedom along a column of states: a CONTINUE state
is never directly below a state with no vMerge element at that column. -/
def goodColumn (σ : List VState) : Prop :=
  ∀ i < σ.length, σ.get? (i + 1) = some VState.vcontinue →
    σ.get? i ≠ some VState.vnone

instance (σ : List VState) : Decidable (goodColumn σ) := by
  unfold goodColumn; infer_instance

theorem goodColumn_tail {s : VState} {rest : List VState}
    (hg : goodColumn (s :: rest)) : goodColumn rest := by
  intro i hi hc
  have := hg (i + 1) (by simpa using Nat.succ_lt_succ hi) (by simpa using hc)
  simpa using this

theorem sumSpans_eq (σ : List VState) (hg : goodColumn σ) :
    sumSpans σ = σ.length - cCount σ := by
  induction σ with
  | nil => rfl
  | cons s rest ih =>
    have hrest := goodColumn_tail hg
    have hle := cCount_le rest
    have hsum := ih hrest
    cases s with
    | vnone =>
      have hc0 : cCount rest = 0 := by
        cases rest with
        | nil => rfl
        | cons r rest' =>
          have hne : r ≠ VState.vcontinue := by
            intro hr
            exact hg 0 (by simp) (by simp [hr]) (by simp)
          rw [cCount_cons, if_neg hne]
      show 1 + sumSpans rest = (rest.length + 1) - cCount (VState.vnone :: rest)
      rw [cCount_cons, if_neg (by decide), hsum, hc0]
      omega
    | vrestart =>
      show (1 + cCount rest) + sumSpans rest
        = (rest.length + 1) - cCount (VState.vrestart :: rest)
      rw [cCount_cons, if_neg (by decide), hsum]
      omega
    | vcontinue =>
      show 0 + sumSpans rest
        = (rest.length + 1) - cCount (VState.vcontinue :: rest)
      rw [cCount_cons, if_pos rfl, hsum]
      omega

theorem classify_none {cell : GCell} (h : cell.vMerge = none) :
    classify cell = VState.vnone := by
  simp [classify, h]

theorem classify_restart {cell : GCell} (h : cell.vMerge = some (some "restart")) :
    classify cell = VState.vrestart := by
  simp [classify, h]

theorem classify_continue {cell : GCell} (h : cell.vMerge = some (some "continue")) :
    classify cell = VState.vcontinue := by
  simp [classify, h]

theorem stateAt_some {c : Nat} {row : List GCell} {cell : GCell}
    (h : row.get? c = some cell) : stateAt c row = classify cell := by
  unfold stateAt
  rw [h]

theorem scanSpan_cons_cell {c : Nat} {row : List GCell} {rest : List (List GCell)}
    {cell : GCell} (h : row.get? c = some cell) :
    scanSpan c (row :: rest) =
      match cell.vMerge with
      | none => 0
      | some v =>
        if v = none ∨ v = some "continue" then 1 + scanSpan c rest else 0 := by
  rw [scanSpan_cons, h]

theorem scanSpan_cons_vnone {c : Nat} {row : List GCell} {rest : List (List GCell)}
    {cell : GCell} (h : row.get? c = some cell) (hv : cell.vMerge = none) :
    scanSpan c (row :: rest) = 0 := by
  rw [scanSpan_cons_cell h, hv]

theorem scanSpan_cons_vsome {c : Nat} {row : List GCell} {rest : List (List GCell)}
    {cell : GCell} {v : Option String} (h : row.get? c = some cell)
    (hv : cell.vMerge = some v) :
    scanSpan c (row :: rest) =
      if v = none ∨ v = some "continue" then 1 + scanSpan c rest else 0 := by
  rw [scanSpan_cons_cell h, hv]

theorem scanSpan_eq_cCount (c : Nat) :
    ∀ rows : List (List GCell),
      (∀ row ∈ rows, c < row.length) →
      (∀ row ∈ rows, ∀ cell ∈ row, canonical cell) →
      scanSpan c rows = cCount (rows.map (stateAt c)) := by
  intro rows
  induction rows with
  | nil => intro _ _; rfl
  | cons row rest ih =>
    intro h1 h3
    have hlt : c < row.length := h1 row (List.mem_cons_self row rest)
    have h1r : ∀ r ∈ rest, c < r.length := fun r hr => h1 r (List.mem_cons_of_mem _ hr)
    have h3r : ∀ r ∈ rest, ∀ x ∈ r, canonical x :=
      fun r hr => h3 r (List.mem_cons_of_mem _ hr)
    rcases hcell : row.get? c with _ | cell
    · exfalso
      rw [List.get?_eq_none] at hcell
      omega
    · have hcan : canonical cell :=
        h3 row (List.mem_cons_self row rest) cell (List.get?_mem hcell)
      have hst := stateAt_some hcell
      rw [List.map_cons, cCount_cons]
      rcases hcan with hv | hv | hv
      · have hne : ¬(stateAt c row = VState.vcontinue) := by
          rw [hst, classify_none hv]
          decide
        rw [scanSpan_cons_vnone hcell hv, if_neg hne]
      · have hne : ¬(stateAt c row = VState.vcontinue) := by
          rw [hst, classify_restart hv]
          decide
        have hx : ¬((some "restart" : Option String) = none
            ∨ (some "restart" : Option String) = some "continue") := by decide
        rw [scanSpan_cons_vsome hcell hv, if_neg hx, if_neg hne]
      · have heq : stateAt c row = VState.vcontinue := by
          rw [hst, classify_continue hv]
        have hx : ((some "continue" : Option String) = none
            ∨ (some "continue" : Option String) = some "continue") := by decide
        rw [scanSpan_cons_vsome hcell hv, if_pos hx, if_pos heq,
          ih h1r h3r]

/-- Specification-level sum of the rendered row spans down one column,
recursing on the rows: each row contributes its cell's computed span at
that column (the scan reading only the rows below it). -/
def specColSum (c : Nat) : List (List GCell) → Nat
  | [] => 0
  | row :: rest =>
    (match row.get? c with
     | some cell =>
       match cell.vMerge with
       | none => 1
       | some v => if v ≠ none ∧ v ≠ some "restart" then 0 else 1 + scanSpan c rest
     | none => 0) + specColSum c rest

theorem specColSum_cons_cell {c : Nat} {row : List GCell}
    {rest : List (List GCell)} {cell : GCell} (h : row.get? c = some cell) :
    specColSum c (row :: rest) =
      (match cell.vMerge with
       | none => 1
       | some v =>
         if v ≠ none ∧ v ≠ some "restart" then 0 else 1 + scanSpan c rest)
      + specColSum c rest := by
  show (match row.get? c with
     | some cell =>
       match cell.vMerge with
       | none => 1
       | some v => if v ≠ none ∧ v ≠ some "restart" then 0 else 1 + scanSpan c rest
     | none => 0) + specColSum c rest = _
  rw [h]

theorem specColSum_cons_vnone {c : Nat} {row : List GCell}
    {rest : List (List GCell)} {cell : GCell} (h : row.get? c = some cell)
    (hv : cell.vMerge = none) :
    specColSum c (row :: rest) = 1 + specColSum c rest := by
  rw [specColSum_cons_cell h, hv]

theorem specColSum_cons_vsome {c : Nat} {row : List GCell}
    {rest : List (List GCell)} {cell : GCell} {v : Option String}
    (h : row.get? c = some cell) (hv : cell.vMerge = some v) :
    specColSum c (row :: rest) =
      (if v ≠ none ∧ v ≠ some "restart" then 0 else 1 + scanSpan c rest)
        + specColSum c rest := by
  rw [specColSum_cons_cell h, hv]

theorem specColSum_eq_sumSpans (c : Nat) :
    ∀ rows : List (List GCell),
      (∀ row ∈ rows, c < row.length) →
      (∀ row ∈ rows, ∀ cell ∈ row, canonical cell) →
      specColSum c rows = sumSpans (rows.map (stateAt c)) := by
  intro rows
  induction rows with
  | nil => intro _ _; rfl
  | cons row rest ih =>
    intro h1 h3
    have hlt : c < row.length := h1 row (List.mem_cons_self row rest)
    have h1r : ∀ r ∈ rest, c < r.length := fun r hr => h1 r (List.mem_cons_of_mem _ hr)
    have h3r : ∀ r ∈ rest, ∀ x ∈ r, canonical x :=
      fun r hr => h3 r (List.mem_cons_of_mem _ hr)
    rcases hcell : row.get? c with _ | cell
    · exfalso
      rw [List.get?_eq_none] at hcell
      omega
    · have hcan : canonical cell :=
        h3 row (List.mem_cons_self row rest) cell (List.get?_mem hcell)
      have hst := stateAt_some hcell
      have hmap : (row :: rest).map (stateAt c) = stateAt c row :: rest.map (stateAt c) :=
        List.map_cons _ _ _
      rw [hmap]
      show _ = spanOf (stateAt c row) (rest.map (stateAt c))
        + sumSpans (rest.map (stateAt c))
      rcases hcan with hv | hv | hv
      · rw [specColSum_cons_vnone hcell hv, hst, classify_none hv, ih h1r h3r]
        rfl
      · have hx : ¬((some "restart" : Option String) ≠ none
            ∧ (some "restart" : Option String) ≠ some "restart") := by decide
        rw [specColSum_cons_vsome hcell hv, if_neg hx, hst, classify_restart hv,
          ih h1r h3r, scanSpan_eq_cCount c rest h1r h3r]
        rfl
      · have hx : ((some "continue" : Option String) ≠ none
            ∧ (some "continue" : Option String) ≠ some "restart") := by decide
        rw [specColSum_cons_vsome hcell hv, if_pos hx, hst, classify_continue hv,
          ih h1r h3r]
        rfl

theorem get_rowspan_vnone {table : List (List GCell)} {rowIdx c : Nat}
    {cell : GCell} (hv : cell.vMerge = none) :
    get_rowspan table rowIdx c cell = 1 := by
  unfold get_rowspan
  rw [hv]

theorem get_rowspan_vsome {table : List (List GCell)} {rowIdx c : Nat}
    {cell : GCell} {v : Option String} (hv : cell.vMerge = some v) :
    get_rowspan table rowIdx c cell =
      if v ≠ none ∧ v ≠ some "restart" then 0
      else 1 + scanSpan c (table.drop (rowIdx + 1)) := by
  unfold get_rowspan
  rw [hv]

/-- The row span `generate` for the cell at offset `j` of a cell list, 0 for
an out-of-range offset. -/
def posSpan (table : List (List GCell)) (rowIdx colIdx : Nat)
    (cells : List GCell) (j : Nat) : Nat :=
  match cells.get? j with
  | some cell => get_rowspan table rowIdx colIdx cell
  | none => 0

theorem posSpan_nil (table : List (List GCell)) (rowIdx colIdx j : Nat) :
    posSpan table rowIdx colIdx [] j = 0 := by
  cases j <;> rfl

theorem posSpan_cons_zero (table : List (List GCell)) (rowIdx colIdx : Nat)
    (cell : GCell) (rest : List GCell) :
    posSpan table rowIdx colIdx (cell :: rest) 0 =
      get_rowspan table rowIdx colIdx cell := rfl

theorem posSpan_cons_succ (table : List (List GCell)) (rowIdx colIdx : Nat)
    (cell : GCell) (rest : List GCell) (j : Nat) :
    posSpan table rowIdx colIdx (cell :: rest) (j + 1) =
      posSpan table rowIdx colIdx rest j := rfl

theorem posSpan_some {table : List (List GCell)} {rowIdx colIdx : Nat}
    {cells : List GCell} {j : Nat} {cell : GCell} (h : cells.get? j = some cell) :
    posSpan table rowIdx colIdx cells j = get_rowspan table rowIdx colIdx cell := by
  unfold posSpan
  rw [h]

theorem renderRowAux_cons (table : List (List GCell)) (rowIdx c₀ : Nat)
    (seen : List Nat) (cell : GCell) (rest : List GCell) :
    renderRowAux table rowIdx c₀ seen (cell :: rest) =
      if cell.tcId ∈ seen then renderRowAux table rowIdx (c₀ + 1) seen rest
      else if get_rowspan table rowIdx c₀ cell = 0 then
        renderRowAux table rowIdx (c₀ + 1) (cell.tcId :: seen) rest
      else (c₀, get_rowspan table rowIdx c₀ cell)
        :: renderRowAux table rowIdx (c₀ + 1) (cell.tcId :: seen) rest := rfl

/-- Summing the spans of the rendered cells of a row at one column gives
exactly the computed row span of the cell at that column (0 when skipped or
out of range), provided the row repeats no cell identity. -/
theorem renderRow_filter_sum (table : List (List GCell)) (rowIdx : Nat) :
    ∀ (cells : List GCell) (c₀ : Nat) (seen : List Nat) (j : Nat),
      (cells.map GCell.tcId).Nodup → (∀ x ∈ cells, x.tcId ∉ seen) →
      (((renderRowAux table rowIdx c₀ seen cells).filter
          (fun q => q.1 == c₀ + j)).map Prod.snd).sum
        = posSpan table rowIdx (c₀ + j) cells j := by
  intro cells
  induction cells with
  | nil =>
    intro c₀ seen j _ _
    rw [posSpan_nil]
    rfl
  | cons cell rest ih =>
    intro c₀ seen j hnd hseen
    have hnotin : cell.tcId ∉ seen := hseen cell (List.mem_cons_self cell rest)
    simp only [List.map_cons, List.nodup_cons] at hnd
    have hseen' : ∀ x ∈ rest, x.tcId ∉ cell.tcId :: seen := by
      intro x hx
      simp only [List.mem_cons]
      rintro (hx1 | hx2)
      · exact hnd.1 (hx1 ▸ List.mem_map_of_mem GCell.tcId hx)
      · exact hseen x (List.mem_cons_of_mem _ hx) hx2
    rw [renderRowAux_cons, if_neg hnotin]
    by_cases h2 : get_rowspan table rowIdx c₀ cell = 0
    · rw [if_pos h2]
      cases j with
      | zero =>
        have hfil : (renderRowAux table rowIdx (c₀ + 1) (cell.tcId :: seen)
            rest).filter (fun q => q.1 == c₀ + 0) = [] := by
          rw [List.filter_eq_nil]
          intro q hq
          obtain ⟨j', cell', hg, hc, _, _⟩ :=
            renderRowAux_mem table rowIdx rest (c₀ + 1) _ q hq
          simp only [beq_iff_eq]
          omega
        rw [hfil, posSpan_cons_zero]
        simp only [Nat.add_zero]
        rw [h2]
        rfl
      | succ j' =>
        have e1 : c₀ + (j' + 1) = (c₀ + 1) + j' := by omega
        rw [e1, ih (c₀ + 1) (cell.tcId :: seen) j' hnd.2 hseen',
          ← e1, posSpan_cons_succ, e1]
    · rw [if_neg h2]
      cases j with
      | zero =>
        have hpred : ((fun q : Nat × Nat => q.1 == c₀ + 0)
            (c₀, get_rowspan table rowIdx c₀ cell)) = true := by
          simp
        rw [List.filter_cons_of_pos (p := fun q : Nat × Nat => q.1 == c₀ + 0) hpred]
        have hfil : (renderRowAux table rowIdx (c₀ + 1) (cell.tcId :: seen)
            rest).filter (fun q => q.1 == c₀ + 0) = [] := by
          rw [List.filter_eq_nil]
          intro q hq
          obtain ⟨j', cell', hg, hc, _, _⟩ :=
            renderRowAux_mem table rowIdx rest (c₀ + 1) _ q hq
          simp only [beq_iff_eq]
          omega
        rw [hfil, posSpan_cons_zero]
        simp only [List.map_cons, List.map_nil, List.sum_cons, List.sum_nil,
          Nat.add_zero]
      | succ j' =>
        have hpred : ¬(((fun q : Nat × Nat => q.1 == c₀ + (j' + 1))
            (c₀, get_rowspan table rowIdx c₀ cell)) = true) := by
          simp only [beq_iff_eq]
          omega
        rw [List.filter_cons_of_neg (p := fun q : Nat × Nat => q.1 == c₀ + (j' + 1)) hpred]
        have e1 : c₀ + (j' + 1) = (c₀ + 1) + j' := by omega
        rw [e1, ih (c₀ + 1) (cell.tcId :: seen) j' hnd.2 hseen',
          ← e1, posSpan_cons_succ, e1]

theorem renderRowsAux_cons (table : List (List GCell)) (i : Nat)
    (row : List GCell) (rest : List (List GCell)) :
    renderRowsAux table i (row :: rest) =
      renderRowAux table i 0 [] row :: renderRowsAux table (i + 1) rest := rfl

theorem renderRows_colsum (c : Nat) :
    ∀ (rows : List (List GCell)) (i : Nat) (table : List (List GCell)),
      table.drop i = rows →
      (∀ row ∈ rows, c < row.length) →
      (∀ row ∈ rows, (row.map GCell.tcId).Nodup) →
      ((renderRowsAux table i rows).map
        (fun cells => ((cells.filter (fun q => q.1 == c)).map Prod.snd).sum)).sum
        = specColSum c rows := by
  intro rows
  induction rows with
  | nil => intro i table _ _ _; rfl
  | cons row rest ih =>
    intro i table hdrop h1 h2
    have hdrop' : table.drop (i + 1) = rest := by
      rw [← List.tail_drop, hdrop]
      rfl
    have h1r : ∀ r ∈ rest, c < r.length := fun r hr => h1 r (List.mem_cons_of_mem _ hr)
    have h2r : ∀ r ∈ rest, (r.map GCell.tcId).Nodup :=
      fun r hr => h2 r (List.mem_cons_of_mem _ hr)
    have hrow := renderRow_filter_sum table i row 0 [] c
      (h2 row (List.mem_cons_self row rest)) (by intro x _; exact List.not_mem_nil _)
    rw [Nat.zero_add] at hrow
    rw [renderRowsAux_cons, List.map_cons, List.sum_cons, hrow,
      ih (i + 1) table hdrop' h1r h2r]
    rcases hcell : row.get? c with _ | cell
    · exfalso
      rw [List.get?_eq_none] at hcell
      exact absurd (h1 row (List.mem_cons_self row rest)) (by omega)
    · rcases hvm : cell.vMerge with _ | v
      · rw [posSpan_some hcell, get_rowspan_vnone hvm,
          specColSum_cons_vnone hcell hvm]
      · rw [posSpan_some hcell, get_rowspan_vsome hvm, hdrop',
          specColSum_cons_vsome hcell hvm]

/-- C3 counterexample: a single-row, single-column table whose only cell is
an orphan CONTINUE marker has no ragged rows at column 0, yet the rendered
row spans at column 0 sum to 0 while the table has 1 row. -/
theorem c3_counterexample :
    columnSpanSum [[⟨0, some (some "continue")⟩]] 0 = 0
    ∧ ([[⟨0, some (some "continue")⟩]] : List (List GCell)).length = 1
    ∧ 0 < ([⟨0, some (some "continue")⟩] : List GCell).length := by
  refine ⟨by decide, rfl, by decide⟩

/-- C3 (amended): for a table whose cells carry only the three canonical
vMerge states, whose rows never repeat a cell identity, and whose column `c`
is in range for every row and contains no orphan continuation (no CONTINUE
directly below a no-vMerge cell, none in the first row), the rendered row
spans at column `c` sum to exactly the table's row count. -/
theorem c3_amended_column_span_sum (table : List (List GCell)) (c : Nat)
    (h1 : ∀ row ∈ table, c < row.length)
    (h2 : ∀ row ∈ table, (row.map GCell.tcId).Nodup)
    (h3 : ∀ row ∈ table, ∀ cell ∈ row, canonical cell)
    (h4 : goodColumn (table.map (stateAt c)))
    (h5 : (table.map (stateAt c)).get? 0 ≠ some VState.vcontinue) :
    columnSpanSum table c = table.length := by
  unfold columnSpanSum renderTableGeometry
  rw [renderRows_colsum c table 0 table rfl h1 h2,
    specColSum_eq_sumSpans c table h1 h3, sumSpans_eq _ h4]
  have hc0 : cCount (table.map (stateAt c)) = 0 := by
    rcases hσ : table.map (stateAt c) with _ | ⟨s, rest⟩
    · rfl
    · rw [cCount_cons, if_neg (fun hs => h5 (by rw [hσ, hs]; rfl))]
  rw [hc0, List.length_map]
  omega

/-- Witness for C3 (amended): a three-row table with one two-row vertical
merge in column 0 renders spans summing to 3 in both columns. -/
theorem c3_witness :
    columnSpanSum [[⟨0, some (some "restart")⟩, ⟨1, none⟩],
        [⟨2, some (some "continue")⟩, ⟨3, none⟩],
        [⟨4, none⟩, ⟨5, none⟩]] 0
      = ([[⟨0, some (some "restart")⟩, ⟨1, none⟩],
          [⟨2, some (some "continue")⟩, ⟨3, none⟩],
          [⟨4, none⟩, ⟨5, none⟩]] : List (List GCell)).length := by
  exact c3_amended_column_span_sum _ 0 (by decide) (by decide) (by decide)
    (by decide) (by decide)

/-!
Border width conversion.
-/

theorem border_side_css_eq (b : BorderEl)
    (hcond : ¬(b.val = some "nil" ∨ b.val = some "none")) :
    border_side_css b =
      (match b.sz with
       | some n => if n ≠ 0 then pyFormat2f n ++ "pt" else "1pt"
       | none => "1pt") ++ " "
      ++ (match b.val with
          | some v => (dictGet? BORDER_STYLE_MAP v).getD "solid"
          | none => "solid") ++ " "
      ++ (match b.color with
          | some c => if c ≠ "" ∧ c ≠ "auto" then "#" ++ c else "#13294b"
          | none => "#13294b") := by
  unfold border_side_css
  rw [if_neg hcond]

/-- C9 counterexample: a border side with style "single" and a parsable
width of 0 (eighths of a point) emits width "1pt" — Python's falsiness of
`0.0` routes it to the default — although the claim requires the source
size divided by 8 formatted as "0.00pt". -/
theorem c9_counterexample :
    border_side_css ⟨some "single", some 0, none⟩ = "1pt solid #13294b"
    ∧ pyFormat2f 0 = "0.00"
    ∧ border_side_css ⟨some "single", some 0, none⟩ ≠ "0.00pt solid #13294b" := by
  refine ⟨by decide, by decide, by decide⟩

/-- C9 (amended): for every border side carrying a style other than
nil/none, the emitted CSS width is the source size divided by 8 formatted
with two decimal places and a pt unit when the size parses to a non-zero
value, and defaults to exactly "1pt" when the size is absent, unparsable,
or zero. -/
theorem c9_amended_border_width (b : BorderEl) (v : String) (hval : b.val = some v)
    (h1 : v ≠ "nil") (h2 : v ≠ "none") :
    (∀ n, b.sz = some n → 0 < n →
      ∃ style color, border_side_css b
        = pyFormat2f n ++ "pt" ++ " " ++ style ++ " " ++ color)
    ∧ ((b.sz = none ∨ b.sz = some 0) →
      ∃ style color, border_side_css b = "1pt" ++ " " ++ style ++ " " ++ color) := by
  have hcond : ¬(b.val = some "nil" ∨ b.val = some "none") := by
    rintro (h | h) <;> rw [hval] at h
    · exact h1 (Option.some.inj h)
    · exact h2 (Option.some.inj h)
  have hwidth : ∀ n, b.sz = some n →
      border_side_css b = (if n ≠ 0 then pyFormat2f n ++ "pt" else "1pt") ++ " "
        ++ (match b.val with
            | some v => (dictGet? BORDER_STYLE_MAP v).getD "solid"
            | none => "solid") ++ " "
        ++ (match b.color with
            | some c => if c ≠ "" ∧ c ≠ "auto" then "#" ++ c else "#13294b"
            | none => "#13294b") := by
    intro n hsz
    rw [border_side_css_eq b hcond, hsz]
  constructor
  · intro n hsz hn
    have hw := hwidth n hsz
    rw [if_pos (show n ≠ 0 by omega)] at hw
    exact ⟨_, _, hw⟩
  · rintro (hsz | hsz)
    · have hw : border_side_css b = "1pt" ++ " "
          ++ (match b.val with
              | some v => (dictGet? BORDER_STYLE_MAP v).getD "solid"
              | none => "solid") ++ " "
          ++ (match b.color with
              | some c => if c ≠ "" ∧ c ≠ "auto" then "#" ++ c else "#13294b"
              | none => "#13294b") := by
        rw [border_side_css_eq b hcond, hsz]
      exact ⟨_, _, hw⟩
    · have hw := hwidth 0 hsz
      rw [if_neg (by omega)] at hw
      exact ⟨_, _, hw⟩

/-- Witness for C9 (amended): size 9 eighths formats as "1.12pt" (9/8 =
1.125, rounded half-to-even), and an absent size with style "wave" defaults
to "1pt". -/
theorem c9_witness :
    (∃ style color, border_side_css ⟨some "double", some 9, some "FF0000"⟩
        = pyFormat2f 9 ++ "pt" ++ " " ++ style ++ " " ++ color)
    ∧ border_side_css ⟨some "double", some 9, some "FF0000"⟩
        = "1.12pt double #FF0000"
    ∧ (∃ style color, border_side_css ⟨some "wave", none, some "auto"⟩
        = "1pt" ++ " " ++ style ++ " " ++ color)
    ∧ border_side_css ⟨some "wave", none, some "auto"⟩ = "1pt wavy #13294b" := by
  refine ⟨(c9_amended_border_width ⟨some "double", some 9, some "FF0000"⟩
      "double" rfl (by decide) (by decide)).1 9 rfl (by decide), by decide,
    (c9_amended_border_width ⟨some "wave", none, some "auto"⟩
      "wave" rfl (by decide) (by decide)).2 (Or.inl rfl), by decide⟩

end ConvertGuides
